import Mathlib

/-!
Verification of the kernel node registry, consensus threshold, peer
authentication and sync detectors of `kernel/node.go`.

Modelling conventions:
* Go `uint64` values are `Nat`; wherever the source performs `uint64`
  arithmetic that can overflow, the model reduces modulo `U64 = 2^64`
  explicitly.  Go `int64` values are `Int` with explicit wrapping where the
  source can overflow or convert from `uint64`.
* A `crypto.Hash` (32 bytes) is a `Nat` below `2^256`.  The source orders
  hashes by their fixed-length lowercase-hex `String()`; on fixed-length
  lowercase hex that lexicographic order coincides with the numeric order of
  the encoded value, so hash-string comparison is modelled as `Nat` order.
* The `config`, `common` and `crypto` packages of the repository are not part
  of the given source file; their constants and primitives are modelled
  abstractly (structures of parameters) following the specification.
* The wall clock is passed explicitly: functions that read the clock take a
  `now` parameter (the source may read the clock several times inside one
  function; all reads are identified with the single parameter).
-/

namespace MixinKernel

/-- The modulus of Go `uint64` arithmetic. -/
def U64 : Nat := 2 ^ 64

/-- Go `uint64` subtraction `a - b` (wrapping), for `a b < U64`. -/
def sub64 (a b : Nat) : Nat := (a + U64 - b % U64) % U64

/-- Go conversion `int64(ts)` of a `uint64` value: values at and above `2^63`
wrap to negative numbers. -/
def int64OfUInt64 (n : Nat) : Int := if n < 2 ^ 63 then (n : Int) else (n : Int) - 2 ^ 64

/-- Wrap an unbounded integer into the `int64` range, the result of an
overflowing Go `int64` operation. -/
def wrap64 (x : Int) : Int := (x + 2 ^ 63) % 2 ^ 64 - 2 ^ 63

/-- Modelled from the spec: the node-state enumeration of the `common`
package (`state ∈ {Pledging, Accepted, Removed, Cancelled, Resigning}`); the
source only ever compares states for equality. -/
inductive NodeState where
  | pledging
  | accepted
  | removed
  | cancelled
  | resigning
deriving DecidableEq, Repr

/-- A 32-byte `crypto.Hash`, as the `Nat` value of its big-endian bytes. -/
abbrev Hash := Nat

/-- Modelled from the spec: a `common.Address`, reduced to the two public
keys the source reads (`PublicSpendKey`, `PublicViewKey`). -/
structure Address where
  publicSpendKey : Nat
  publicViewKey : Nat
deriving DecidableEq, Repr

/-- Structure `CNode` of `kernel/node.go` (lines 70-78). -/
structure CNode where
  idForNetwork : Hash
  signer : Address
  payee : Address
  transaction : Hash
  timestamp : Nat
  state : NodeState
  consensusIndex : Nat
deriving DecidableEq, Repr

/-- Structure `NodeStateSequence` of `kernel/node.go` (lines 65-68). -/
structure NodeStateSequence where
  timestamp : Nat
  nodesWithoutState : List CNode
deriving DecidableEq, Repr

/-- Modelled from the spec: the kernel constants of the `config` package
used by `kernel/node.go`, kept abstract (per-boot immutable parameters). -/
structure KernelConfig where
  snapshotReferenceThreshold : Nat
  snapshotRoundGap : Nat
  kernelNodeAcceptPeriodMinimum : Nat
  kernelMinimumNodesCount : Nat
deriving DecidableEq, Repr

/-- The configuration constraints the source enforces by run-time guards in
`ConsensusThreshold` (lines 275-285): the reference gap is at most 3 minutes
and the accept period at least one hour (both in nanoseconds, and both
representable: the accept period is a positive Go `time.Duration`, an
`int64`). -/
def KernelConfig.Valid (cfg : KernelConfig) : Prop :=
  cfg.snapshotReferenceThreshold * cfg.snapshotRoundGap ≤ 180 * 1000000000 ∧
  3600 * 1000000000 ≤ cfg.kernelNodeAcceptPeriodMinimum ∧
  cfg.kernelNodeAcceptPeriodMinimum < 2 ^ 63

/-- Function `Node.NodesListWithoutState` (lines 166-178) restricted to one sequence
array: scan the array from the end and return the node list of the first
entry whose timestamp is strictly below the threshold, or the empty list. -/
def nodesListWithoutState (sequences : List NodeStateSequence) (threshold : Nat) : List CNode :=
  match sequences.reverse.find? (fun seq => seq.timestamp < threshold) with
  | some seq => seq.nodesWithoutState
  | none => []

/-- Function `Node.ConsensusReady` (lines 258-269): `genesisNodesMap` is passed as the
membership function of the node's genesis set. -/
def consensusReady (cfg : KernelConfig) (genesisNodesMap : Hash → Bool)
    (cn : CNode) (timestamp : Nat) : Bool :=
  if cn.state ≠ NodeState.accepted then false
  else if genesisNodesMap cn.idForNetwork then true
  else if (cn.timestamp + cfg.kernelNodeAcceptPeriodMinimum) % U64 < timestamp then true
  else false

/-- The per-node counting condition of the loop body of
`Node.ConsensusThreshold` (lines 274-295), with the source's `uint64`
arithmetic made explicit (`threshold` is the reference gap
`SnapshotReferenceThreshold * SnapshotRoundGap`; the pledging branch
computes `uint64(KernelNodeAcceptPeriodMinimum) - threshold*3`). -/
def thresholdCountCond (cfg : KernelConfig) (genesisNodesMap : Hash → Bool)
    (timestamp : Nat) (final : Bool) (cn : CNode) : Bool :=
  let threshold := cfg.snapshotReferenceThreshold * cfg.snapshotRoundGap % U64
  match cn.state with
  | NodeState.pledging =>
      let t := sub64 (cfg.kernelNodeAcceptPeriodMinimum % U64) (threshold * 3 % U64)
      !final && (cn.timestamp + t) % U64 < timestamp
  | NodeState.accepted =>
      genesisNodesMap cn.idForNetwork || (cn.timestamp + threshold) % U64 < timestamp
  | _ => false

/-- Function `Node.ConsensusThreshold` (lines 271-301): count the base over
`NodesListWithoutState(timestamp, false)` and return the sentinel `1000`
when it is below the minimum, else the BFT supermajority.  The source's
guard panics on an invalid configuration; on a valid configuration it is
exactly this function. -/
def consensusThreshold (cfg : KernelConfig) (genesisNodesMap : Hash → Bool)
    (sequences : List NodeStateSequence) (timestamp : Nat) (final : Bool) : Nat :=
  let nodes := nodesListWithoutState sequences timestamp
  let base := nodes.foldl
    (fun acc cn => if thresholdCountCond cfg genesisNodesMap timestamp final cn then acc + 1 else acc) 0
  if base < cfg.kernelMinimumNodesCount then 1000 else base * 2 / 3 + 1

/-- The counting condition of `ConsensusThreshold` as the specification words
it (C1), with exact (non-wrapping) arithmetic: a Pledging node is counted iff
the flag is off and its timestamp plus the reduced accept period is strictly
below the query timestamp; an Accepted node iff it is genesis or its
timestamp plus the reference gap is strictly below the query timestamp. -/
def thresholdCountSpec (cfg : KernelConfig) (genesisNodesMap : Hash → Bool)
    (timestamp : Nat) (final : Bool) (cn : CNode) : Bool :=
  match cn.state with
  | NodeState.pledging =>
      !final &&
        cn.timestamp +
          (cfg.kernelNodeAcceptPeriodMinimum -
            3 * (cfg.snapshotReferenceThreshold * cfg.snapshotRoundGap)) < timestamp
  | NodeState.accepted =>
      genesisNodesMap cn.idForNetwork ||
        cn.timestamp + cfg.snapshotReferenceThreshold * cfg.snapshotRoundGap < timestamp
  | _ => false

theorem foldl_count_eq_countP {α : Type} (p : α → Bool) (l : List α) (a : Nat) :
    l.foldl (fun acc c => if p c then acc + 1 else acc) a = a + l.countP p := by
  induction l generalizing a with
  | nil => simp
  | cons x xs ih =>
      simp only [List.foldl_cons, List.countP_cons]
      by_cases h : p x
      · simp [h, ih]
        omega
      · simp [h, ih]

theorem sub64_eq {a b : Nat} (hba : b ≤ a) (ha : a < U64) : sub64 a b = a - b := by
  unfold sub64
  rw [Nat.mod_eq_of_lt (lt_of_le_of_lt hba ha)]
  have h1 : a + U64 - b = U64 + (a - b) := by omega
  rw [h1, Nat.add_mod_left, Nat.mod_eq_of_lt (by omega)]

theorem U64_pos : 0 < U64 := by decide

/-- On a valid configuration, and for a node whose timestamp plus the accept
period does not overflow, the exact loop condition of `ConsensusThreshold`
coincides with the specification's exact-arithmetic condition. -/
theorem thresholdCountCond_eq_spec (cfg : KernelConfig) (genesisNodesMap : Hash → Bool)
    (timestamp : Nat) (final : Bool) (cn : CNode) (hcfg : cfg.Valid)
    (hcn : cn.timestamp + cfg.kernelNodeAcceptPeriodMinimum < U64) :
    thresholdCountCond cfg genesisNodesMap timestamp final cn =
      thresholdCountSpec cfg genesisNodesMap timestamp final cn := by
  obtain ⟨hgap, hkapm, hkapm64⟩ := hcfg
  have hU : (180 * 1000000000 : Nat) < U64 := by decide
  have h63 : (2 ^ 63 : Nat) < U64 := by decide
  have hthr : cfg.snapshotReferenceThreshold * cfg.snapshotRoundGap % U64 =
      cfg.snapshotReferenceThreshold * cfg.snapshotRoundGap :=
    Nat.mod_eq_of_lt (by omega)
  unfold thresholdCountCond thresholdCountSpec
  cases cn.state with
  | pledging =>
      simp only [hthr]
      have hk : cfg.kernelNodeAcceptPeriodMinimum % U64 = cfg.kernelNodeAcceptPeriodMinimum :=
        Nat.mod_eq_of_lt (by omega)
      have h3 : cfg.snapshotReferenceThreshold * cfg.snapshotRoundGap * 3 % U64 =
          cfg.snapshotReferenceThreshold * cfg.snapshotRoundGap * 3 :=
        Nat.mod_eq_of_lt (by omega)
      rw [hk, h3, sub64_eq (by omega) (by omega)]
      have harith : cfg.kernelNodeAcceptPeriodMinimum -
          cfg.snapshotReferenceThreshold * cfg.snapshotRoundGap * 3 =
          cfg.kernelNodeAcceptPeriodMinimum -
            3 * (cfg.snapshotReferenceThreshold * cfg.snapshotRoundGap) := by
        omega
      rw [harith, Nat.mod_eq_of_lt (by omega)]
  | accepted =>
      simp only [hthr]
      rw [Nat.mod_eq_of_lt (by omega)]
  | removed => rfl
  | cancelled => rfl
  | resigning => rfl

/-- C1: `ConsensusThreshold(T, final)` counts, over
`NodesListWithoutState(T, false)`, each Pledging node iff `final` is false
and `cn.timestamp + (KERNEL_NODE_ACCEPT_PERIOD_MINIMUM −
3·SNAPSHOT_REFERENCE_THRESHOLD·SNAPSHOT_ROUND_GAP) < T`, and each Accepted
node iff it is a genesis node or `cn.timestamp +
SNAPSHOT_REFERENCE_THRESHOLD·SNAPSHOT_ROUND_GAP < T`; it returns the
sentinel `1000` when the counted base is below
`KERNEL_MINIMUM_NODES_COUNT` and `base·2/3 + 1` otherwise; and with
`final = true` no Pledging node ever satisfies the counting condition.
Stated for valid configurations and non-overflowing node timestamps. -/
theorem consensusThreshold_spec (cfg : KernelConfig) (genesisNodesMap : Hash → Bool)
    (sequences : List NodeStateSequence) (timestamp : Nat) (final : Bool)
    (hcfg : cfg.Valid)
    (hts : ∀ cn ∈ nodesListWithoutState sequences timestamp,
      cn.timestamp + cfg.kernelNodeAcceptPeriodMinimum < U64) :
    (consensusThreshold cfg genesisNodesMap sequences timestamp final =
      if ((nodesListWithoutState sequences timestamp).filter
            (thresholdCountSpec cfg genesisNodesMap timestamp final)).length <
          cfg.kernelMinimumNodesCount
      then 1000
      else ((nodesListWithoutState sequences timestamp).filter
              (thresholdCountSpec cfg genesisNodesMap timestamp final)).length * 2 / 3 + 1) ∧
    (∀ cn : CNode, cn.state = NodeState.pledging →
      thresholdCountSpec cfg genesisNodesMap timestamp true cn = false) := by
  constructor
  · simp only [consensusThreshold]
    rw [foldl_count_eq_countP, Nat.zero_add]
    have hcount : (nodesListWithoutState sequences timestamp).countP
        (thresholdCountCond cfg genesisNodesMap timestamp final) =
        (nodesListWithoutState sequences timestamp).countP
          (thresholdCountSpec cfg genesisNodesMap timestamp final) := by
      apply List.countP_congr
      intro cn hmem
      rw [thresholdCountCond_eq_spec cfg genesisNodesMap timestamp final cn hcfg (hts cn hmem)]
    rw [hcount, List.countP_eq_length_filter]
  · intro cn hst
    unfold thresholdCountSpec
    rw [hst]
    simp

/-- A realistic configuration: reference threshold 10, round gap 3 s,
accept period 12 h (all in nanoseconds), minimum node count 7. -/
def cfg0 : KernelConfig :=
  { snapshotReferenceThreshold := 10
    snapshotRoundGap := 3000000000
    kernelNodeAcceptPeriodMinimum := 43200000000000
    kernelMinimumNodesCount := 7 }

/-- An empty genesis set. -/
def gmapFalse : Hash → Bool := fun _ => false

/-- A concrete accepted registry entry. -/
def cnAcc : CNode :=
  { idForNetwork := 5, signer := ⟨1, 2⟩, payee := ⟨3, 4⟩, transaction := 9
    timestamp := 1000, state := NodeState.accepted, consensusIndex := 0 }

/-- A concrete one-entry sequence array. -/
def seqs0 : List NodeStateSequence := [⟨1000, [cnAcc]⟩]

theorem consensusThreshold_spec_witness :
    consensusThreshold cfg0 gmapFalse seqs0 2000 false =
      if ((nodesListWithoutState seqs0 2000).filter
            (thresholdCountSpec cfg0 gmapFalse 2000 false)).length <
          cfg0.kernelMinimumNodesCount
      then 1000
      else ((nodesListWithoutState seqs0 2000).filter
              (thresholdCountSpec cfg0 gmapFalse 2000 false)).length * 2 / 3 + 1 :=
  (consensusThreshold_spec cfg0 gmapFalse seqs0 2000 false (by constructor <;> decide)
    (by decide)).1

/-- C4: `ConsensusReady(cn, T)` is false when `cn.State` is not Accepted; is
true when `cn` is Accepted and a genesis node; and otherwise is true iff
`cn.Timestamp + KERNEL_NODE_ACCEPT_PERIOD_MINIMUM < T` strictly, so for a
non-genesis Accepted node it is false at exactly
`T = cn.Timestamp + KERNEL_NODE_ACCEPT_PERIOD_MINIMUM` and true at that
value plus 1.  Stated for non-overflowing timestamps. -/
theorem consensusReady_spec (cfg : KernelConfig) (genesisNodesMap : Hash → Bool)
    (cn : CNode) (timestamp : Nat)
    (hov : cn.timestamp + cfg.kernelNodeAcceptPeriodMinimum + 1 < U64) :
    (cn.state ≠ NodeState.accepted → consensusReady cfg genesisNodesMap cn timestamp = false) ∧
    (cn.state = NodeState.accepted → genesisNodesMap cn.idForNetwork = true →
      consensusReady cfg genesisNodesMap cn timestamp = true) ∧
    (cn.state = NodeState.accepted → genesisNodesMap cn.idForNetwork = false →
      (consensusReady cfg genesisNodesMap cn timestamp = true ↔
        cn.timestamp + cfg.kernelNodeAcceptPeriodMinimum < timestamp)) ∧
    (cn.state = NodeState.accepted → genesisNodesMap cn.idForNetwork = false →
      consensusReady cfg genesisNodesMap cn
          (cn.timestamp + cfg.kernelNodeAcceptPeriodMinimum) = false ∧
      consensusReady cfg genesisNodesMap cn
          (cn.timestamp + cfg.kernelNodeAcceptPeriodMinimum + 1) = true) := by
  have hmod : (cn.timestamp + cfg.kernelNodeAcceptPeriodMinimum) % U64 =
      cn.timestamp + cfg.kernelNodeAcceptPeriodMinimum :=
    Nat.mod_eq_of_lt (by omega)
  unfold consensusReady
  refine ⟨?_, ?_, ?_, ?_⟩
  · intro h
    simp [h]
  · intro hst hg
    simp [hst, hg]
  · intro hst hg
    simp [hst, hg, hmod]
  · intro hst hg
    simp [hst, hg, hmod]

/-- The canonical non-strict order of the registry: timestamp ascending,
ties broken by the id.  The source compares ids by their fixed-length
lowercase-hex `String()`, whose lexicographic order equals the numeric
order modelled here.  `sort.Slice` in the source uses the strict part of
this order; a list is sorted for `sort.Slice` exactly when it is pairwise
ordered by this non-strict relation. -/
def canonicalLe (a b : CNode) : Prop :=
  a.timestamp < b.timestamp ∨ (a.timestamp = b.timestamp ∧ a.idForNetwork ≤ b.idForNetwork)

instance : DecidableRel canonicalLe := fun a b => by
  unfold canonicalLe
  infer_instance

instance : IsTotal CNode canonicalLe :=
  ⟨by
    intro a b
    simp only [canonicalLe]
    rcases Nat.lt_trichotomy a.timestamp b.timestamp with h | h | h
    · exact Or.inl (Or.inl h)
    · rcases Nat.le_total a.idForNetwork b.idForNetwork with hle | hle
      · exact Or.inl (Or.inr ⟨h, hle⟩)
      · exact Or.inr (Or.inr ⟨h.symm, hle⟩)
    · exact Or.inr (Or.inl h)⟩

instance : IsTrans CNode canonicalLe :=
  ⟨by
    intro a b c hab hbc
    simp only [canonicalLe] at hab hbc ⊢
    rcases hab with h1 | ⟨h1, h2⟩
    · rcases hbc with h3 | ⟨h3, _⟩
      · exact Or.inl (Nat.lt_trans h1 h3)
      · exact Or.inl (h3 ▸ h1)
    · rcases hbc with h3 | ⟨h3, h4⟩
      · exact Or.inl (h1 ▸ h3)
      · exact Or.inr ⟨h1.trans h3, Nat.le_trans h2 h4⟩⟩

/-- The states that advance the consensus-index counter in
`nodeSequenceWithoutState` (lines 212-219): Accepted and Pledging. -/
def isActive (cn : CNode) : Bool :=
  cn.state == NodeState.accepted || cn.state == NodeState.pledging

/-- One write into the last-writer-wins filter map of
`nodeSequenceWithoutState` (lines 181-187): a Go map write replaces any
previous entry with the same id; the map is modelled as its entry list. -/
def lwwInsert (acc : List CNode) (n : CNode) : List CNode :=
  acc.filter (fun m => m.idForNetwork ≠ n.idForNetwork) ++ [n]

/-- Overwrite the `ConsensusIndex` field. -/
def setConsensusIndex (cn : CNode) (i : Nat) : CNode := { cn with consensusIndex := i }

/-- The index-assignment pass of `nodeSequenceWithoutState` (lines 212-219):
every element receives the running index; the index advances only on
Accepted and Pledging entries. -/
def assignIndex : Nat → List CNode → List CNode
  | _, [] => []
  | index, cn :: rest =>
      setConsensusIndex cn index :: assignIndex (if isActive cn then index + 1 else index) rest

/-- Function `Node.nodeSequenceWithoutState` (lines 180-221): collect the latest
entry per id below the threshold (the scan stops at the first entry at or
above the threshold, the registry being timestamp-sorted), optionally keep
only Accepted entries, sort canonically, then assign indexes.  The source
copies each surviving node with a zero `ConsensusIndex` before sorting;
since the assignment pass overwrites the field of every element the copy is
dropped here.  `sort.Slice` is modelled by insertion sort over
`canonicalLe`; the surviving entries carry pairwise distinct ids (Go map
values), on which the canonical order is linear, so the sorted permutation
is unique and the model agrees with any correct `sort.Slice`. -/
def nodeSequenceWithoutState (allNodesSortedWithState : List CNode)
    (threshold : Nat) (acceptedOnly : Bool) : List CNode :=
  let filterMap := (allNodesSortedWithState.takeWhile
    (fun n => n.timestamp < threshold)).foldl lwwInsert []
  let nodes := filterMap.filter (fun n => !acceptedOnly || n.state == NodeState.accepted)
  assignIndex 0 (List.insertionSort canonicalLe nodes)

theorem assignIndex_length (k : Nat) (l : List CNode) :
    (assignIndex k l).length = l.length := by
  induction l generalizing k with
  | nil => rfl
  | cons x xs ih => simp [assignIndex, ih]

theorem assignIndex_getElem (l : List CNode) (k i : Nat) (h : i < l.length)
    (h2 : i < (assignIndex k l).length) :
    (assignIndex k l)[i] = setConsensusIndex l[i] (k + (l.take i).countP isActive) := by
  induction l generalizing k i with
  | nil => simp at h
  | cons x xs ih =>
      cases i with
      | zero => simp [assignIndex]
      | succ n =>
          have hn : n < xs.length := by simpa using h
          have hn2 : n < (assignIndex (if isActive x then k + 1 else k) xs).length := by
            rw [assignIndex_length]
            exact hn
          simp only [assignIndex, List.getElem_cons_succ, List.take_succ_cons,
            List.countP_cons]
          rw [ih (if isActive x then k + 1 else k) n hn hn2]
          by_cases hx : isActive x
          · simp only [hx, if_true]
            have : k + 1 + (xs.take n).countP isActive =
                k + ((xs.take n).countP isActive + 1) := by omega
            rw [this]
          · simp [hx]

theorem assignIndex_take (k i : Nat) (l : List CNode) :
    (assignIndex k l).take i = assignIndex k (l.take i) := by
  induction l generalizing k i with
  | nil => simp [assignIndex]
  | cons x xs ih =>
      cases i with
      | zero => rfl
      | succ n => simp [assignIndex, ih]

theorem countP_assignIndex (k : Nat) (l : List CNode) :
    (assignIndex k l).countP isActive = l.countP isActive := by
  induction l generalizing k with
  | nil => rfl
  | cons x xs ih =>
      have hx : isActive (setConsensusIndex x k) = isActive x := rfl
      simp [assignIndex, List.countP_cons, ih, hx]

theorem canonicalLe_setConsensusIndex (a b : CNode) (i j : Nat) :
    canonicalLe (setConsensusIndex a i) (setConsensusIndex b j) ↔ canonicalLe a b :=
  Iff.rfl

theorem isActive_setConsensusIndex (cn : CNode) (i : Nat) :
    isActive (setConsensusIndex cn i) = isActive cn := rfl

theorem assignIndex_pairwise (k : Nat) (l : List CNode)
    (h : l.Pairwise canonicalLe) : (assignIndex k l).Pairwise canonicalLe := by
  rw [List.pairwise_iff_getElem] at h ⊢
  intro i j hi hj hij
  have hi' : i < l.length := by rwa [assignIndex_length] at hi
  have hj' : j < l.length := by rwa [assignIndex_length] at hj
  rw [assignIndex_getElem l k i hi' hi, assignIndex_getElem l k j hj' hj]
  exact (canonicalLe_setConsensusIndex _ _ _ _).mpr (h i j hi' hj' hij)

theorem countP_take_succ {α : Type} (p : α → Bool) (l : List α) (i : Nat)
    (h : i < l.length) :
    (l.take (i + 1)).countP p = (l.take i).countP p + (if p l[i] then 1 else 0) := by
  rw [List.take_succ, List.countP_append]
  have : l[i]? = some l[i] := List.getElem?_eq_getElem h
  rw [this]
  simp [List.countP_cons]

theorem countP_take_le {α : Type} (p : α → Bool) (l : List α) (i j : Nat)
    (h : i ≤ j) : (l.take i).countP p ≤ (l.take j).countP p := by
  have hsub : List.Sublist (l.take i) (l.take j) := by
    have h2 : (l.take j).take i = l.take i := by
      rw [List.take_take, Nat.min_eq_left h]
    rw [← h2]
    exact List.take_sublist i (l.take j)
  exact hsub.countP_le p

theorem assignIndex_zero_props (sorted : List CNode)
    (hs : sorted.Pairwise canonicalLe) :
    (assignIndex 0 sorted).Pairwise canonicalLe ∧
    (∀ (i : Nat) (hi : i < (assignIndex 0 sorted).length),
      isActive (assignIndex 0 sorted)[i] = true →
      (assignIndex 0 sorted)[i].consensusIndex =
        ((assignIndex 0 sorted).take i).countP isActive) ∧
    (∀ (i j : Nat) (hi : i < (assignIndex 0 sorted).length)
      (hj : j < (assignIndex 0 sorted).length), i < j →
      isActive (assignIndex 0 sorted)[i] = true →
      isActive (assignIndex 0 sorted)[j] = true →
      (assignIndex 0 sorted)[i].consensusIndex <
        (assignIndex 0 sorted)[j].consensusIndex) := by
  have hlen : ∀ i : Nat, i < (assignIndex 0 sorted).length → i < sorted.length := by
    intro i hi
    rwa [assignIndex_length] at hi
  have hidx : ∀ (i : Nat) (hi : i < (assignIndex 0 sorted).length),
      (assignIndex 0 sorted)[i].consensusIndex =
        ((assignIndex 0 sorted).take i).countP isActive := by
    intro i hi
    have hi2 : i < sorted.length := hlen i hi
    rw [assignIndex_getElem sorted 0 i hi2 hi, assignIndex_take, countP_assignIndex]
    simp [setConsensusIndex]
  refine ⟨assignIndex_pairwise 0 sorted hs, fun i hi _ => hidx i hi, ?_⟩
  intro i j hi hj hij hacti hactj
  have hi2 : i < sorted.length := hlen i hi
  have hj2 : j < sorted.length := hlen j hj
  rw [hidx i hi, hidx j hj, assignIndex_take, assignIndex_take,
    countP_assignIndex, countP_assignIndex]
  have hpres : isActive ((assignIndex 0 sorted)[i]) = isActive sorted[i] := by
    rw [assignIndex_getElem sorted 0 i hi2 hi, isActive_setConsensusIndex]
  have hact : isActive sorted[i] = true := by
    rw [← hpres]
    exact hacti
  have hstep : (sorted.take (i + 1)).countP isActive =
      (sorted.take i).countP isActive + 1 := by
    rw [countP_take_succ isActive sorted i hi2]
    simp [hact]
  have hle := countP_take_le isActive sorted (i + 1) j hij
  omega

/-- C5: the list produced by `nodeSequenceWithoutState` is sorted under the
canonical order (timestamp ascending, ties broken by the hex id string,
i.e. the numeric id), and over its Pledging/Accepted entries the consensus
index equals the entry's 0-based position among that subset and is strictly
monotonic. -/
theorem nodeSequenceWithoutState_sorted_indexed (allNodes : List CNode)
    (threshold : Nat) (acceptedOnly : Bool) (out : List CNode)
    (hout : out = nodeSequenceWithoutState allNodes threshold acceptedOnly) :
    out.Pairwise canonicalLe ∧
    (∀ (i : Nat) (hi : i < out.length), isActive out[i] = true →
      out[i].consensusIndex = (out.take i).countP isActive) ∧
    (∀ (i j : Nat) (hi : i < out.length) (hj : j < out.length), i < j →
      isActive out[i] = true → isActive out[j] = true →
      out[i].consensusIndex < out[j].consensusIndex) := by
  subst hout
  simp only [nodeSequenceWithoutState]
  exact assignIndex_zero_props _ (List.sorted_insertionSort canonicalLe _)

/-- A peer sync point (`p2p.SyncPoint`, identical in shape to the legacy
`network.SyncPoint`); the pool counters carried by the source are never
read by the detectors and are omitted. -/
structure SyncPoint where
  nodeId : Hash
  hash : Hash
  number : Nat
deriving DecidableEq, Repr

/-- The final round of the local chain state read by the detectors. -/
structure FinalRound where
  hash : Hash
  number : Nat
  start : Nat
deriving DecidableEq, Repr

/-- Modelled from the spec: the result of the cache round's `asFinal()`
projection, `{hash, start}` or absent. -/
structure FinalView where
  hash : Hash
  start : Nat
deriving DecidableEq, Repr

/-- Modelled from the spec: a cache round, reduced to its `asFinal()`
projection, the only part the detectors read. -/
structure CacheRound where
  asFinal : Option FinalView
deriving DecidableEq, Repr

/-- The chain-head view (`node.chain.State`) read by the detectors. -/
structure ChainState where
  finalRound : FinalRound
  cacheRound : Option CacheRound
deriving DecidableEq, Repr

/-- Whether a node has reported a sync point; its counting condition in the
catch-up walk.  The Go sync-point map snapshot is modelled as its entry
list with `lookup`. -/
def hasRemote (spm : List (Hash × SyncPoint)) (cn : CNode) : Bool :=
  (spm.lookup cn.idForNetwork).isSome

/-- The per-node broadcast counting condition of
`CheckBroadcastedToP2PPeers` (lines 633-641): a reported remote round at
most one behind the local final round (`uint64` increment made explicit). -/
def broadcastCount (spm : List (Hash × SyncPoint)) (final : Nat) (cn : CNode) : Bool :=
  match spm.lookup cn.idForNetwork with
  | none => false
  | some remote => (remote.number + 1) % U64 ≥ final

/-- Function `Node.CheckBroadcastedToP2PPeers` (lines 624-643): the sync-point map
snapshot, the sequence arrays, the chain state and the clock are passed
explicitly. -/
def checkBroadcastedToP2PPeers (cfg : KernelConfig) (genesisNodesMap : Hash → Bool)
    (seqsAll seqsAcc : List NodeStateSequence) (spm : List (Hash × SyncPoint))
    (chainState : Option ChainState) (now : Nat) : Bool :=
  match chainState with
  | none => false
  | some st =>
      if spm.isEmpty then false
      else
        let threshold := consensusThreshold cfg genesisNodesMap seqsAll now false
        let count := (nodesListWithoutState seqsAcc now).foldl
          (fun acc cn => if broadcastCount spm st.finalRound.number cn then acc + 1 else acc) 1
        decide (count ≥ threshold)

/-- A reported sync point passes the catch-up walk of
`CheckCatchUpWithP2PPeers` (lines 681-713) without forcing an early false
return: it is at most the local final round, or not beyond one round ahead
while the local cache round exists, projects to a final view with the same
hash, and started at least `SNAPSHOT_ROUND_GAP · 100` before `now`. -/
def remoteOk (cfg : KernelConfig) (final now : Nat) (cacheRound : Option CacheRound)
    (remote : SyncPoint) : Prop :=
  remote.number ≤ final ∨
  (¬ remote.number > (final + 1) % U64 ∧
    ∃ cr, cacheRound = some cr ∧ ∃ cf, cr.asFinal = some cf ∧
      cf.hash = remote.hash ∧ (cf.start + cfg.snapshotRoundGap * 100) % U64 ≤ now)

/-- The loop of `CheckCatchUpWithP2PPeers` (lines 681-713): walk the node
list threading the updated counter; `none` models the early `return false`
paths. -/
def catchUpWalk (cfg : KernelConfig) (spm : List (Hash × SyncPoint)) (final now : Nat)
    (cacheRound : Option CacheRound) : List CNode → Nat → Option Nat
  | [], updated => some updated
  | cn :: rest, updated =>
      match spm.lookup cn.idForNetwork with
      | none => catchUpWalk cfg spm final now cacheRound rest updated
      | some remote =>
          if remote.number ≤ final then
            catchUpWalk cfg spm final now cacheRound rest (updated + 1)
          else if remote.number > (final + 1) % U64 then none
          else
            match cacheRound with
            | none => none
            | some cr =>
                match cr.asFinal with
                | none => none
                | some cf =>
                    if cf.hash ≠ remote.hash then none
                    else if (cf.start + cfg.snapshotRoundGap * 100) % U64 > now then none
                    else catchUpWalk cfg spm final now cacheRound rest (updated + 1)

/-- Function `Node.CheckCatchUpWithP2PPeers` (lines 670-719). -/
def checkCatchUpWithP2PPeers (cfg : KernelConfig) (genesisNodesMap : Hash → Bool)
    (seqsAll seqsAcc : List NodeStateSequence) (spm : List (Hash × SyncPoint))
    (chainState : Option ChainState) (now : Nat) : Bool :=
  match chainState with
  | none => false
  | some st =>
      if spm.isEmpty then false
      else
        let threshold := consensusThreshold cfg genesisNodesMap seqsAll now false
        match catchUpWalk cfg spm st.finalRound.number now st.cacheRound
            (nodesListWithoutState seqsAcc now) 1 with
        | none => false
        | some updated => decide (updated ≥ threshold)

theorem catchUpWalk_some_iff (cfg : KernelConfig) (spm : List (Hash × SyncPoint))
    (final now : Nat) (cacheRound : Option CacheRound) (nodes : List CNode) (u v : Nat) :
    catchUpWalk cfg spm final now cacheRound nodes u = some v ↔
      ((∀ cn ∈ nodes, ∀ remote, spm.lookup cn.idForNetwork = some remote →
        remoteOk cfg final now cacheRound remote) ∧
        v = u + nodes.countP (hasRemote spm)) := by
  induction nodes generalizing u with
  | nil =>
      simp [catchUpWalk]
      omega
  | cons cn rest ih =>
      simp only [catchUpWalk, List.forall_mem_cons, List.countP_cons]
      cases hlk : spm.lookup cn.idForNetwork with
      | none =>
          rw [ih u]
          simp [hlk, hasRemote]
      | some remote =>
          have hhr : (if hasRemote spm cn = true then 1 else 0) = 1 := by
            simp [hasRemote, hlk]
          rw [hhr]
          dsimp only
          simp only [Option.some.injEq, forall_eq']
          by_cases h1 : remote.number ≤ final
          · rw [if_pos h1, ih (u + 1)]
            constructor
            · rintro ⟨hall, hv⟩
              exact ⟨⟨Or.inl h1, hall⟩, by omega⟩
            · rintro ⟨⟨_, hall⟩, hv⟩
              exact ⟨hall, by omega⟩
          · rw [if_neg h1]
            by_cases h2 : remote.number > (final + 1) % U64
            · rw [if_pos h2]
              constructor
              · intro h
                cases h
              · rintro ⟨⟨hok, _⟩, _⟩
                rcases hok with h | ⟨hnot, _⟩
                · exact absurd h h1
                · exact absurd h2 hnot
            · rw [if_neg h2]
              cases cacheRound with
              | none =>
                  constructor
                  · intro h
                    cases h
                  · rintro ⟨⟨hok, _⟩, _⟩
                    rcases hok with h | ⟨_, cr, hcr, _⟩
                    · exact absurd h h1
                    · cases hcr
              | some cr =>
                  dsimp only
                  cases hcf : cr.asFinal with
                  | none =>
                      dsimp only
                      constructor
                      · intro h
                        cases h
                      · rintro ⟨⟨hok, _⟩, _⟩
                        rcases hok with h | ⟨_, cr2, hcr2, cf2, hcf2, _⟩
                        · exact absurd h h1
                        · rw [Option.some_inj] at hcr2
                          subst hcr2
                          rw [hcf] at hcf2
                          cases hcf2
                  | some cf =>
                      dsimp only
                      by_cases h3 : cf.hash ≠ remote.hash
                      · rw [if_pos h3]
                        constructor
                        · intro h
                          cases h
                        · rintro ⟨⟨hok, _⟩, _⟩
                          rcases hok with h | ⟨_, cr2, hcr2, cf2, hcf2, hh, _⟩
                          · exact absurd h h1
                          · rw [Option.some_inj] at hcr2
                            subst hcr2
                            rw [hcf] at hcf2
                            rw [Option.some_inj] at hcf2
                            subst hcf2
                            exact absurd hh h3
                      · rw [if_neg h3]
                        by_cases h4 : (cf.start + cfg.snapshotRoundGap * 100) % U64 > now
                        · rw [if_pos h4]
                          constructor
                          · intro h
                            cases h
                          · rintro ⟨⟨hok, _⟩, _⟩
                            rcases hok with h | ⟨_, cr2, hcr2, cf2, hcf2, _, hst⟩
                            · exact absurd h h1
                            · rw [Option.some_inj] at hcr2
                              subst hcr2
                              rw [hcf] at hcf2
                              rw [Option.some_inj] at hcf2
                              subst hcf2
                              exact absurd hst (not_le.mpr h4)
                        · rw [if_neg h4, ih (u + 1)]
                          have hok : remoteOk cfg final now (some cr) remote :=
                            Or.inr ⟨h2, cr, rfl, cf, hcf, not_not.mp h3, not_lt.mp h4⟩
                          constructor
                          · rintro ⟨hall, hv⟩
                            exact ⟨⟨hok, hall⟩, by omega⟩
                          · rintro ⟨⟨_, hall⟩, hv⟩
                            exact ⟨hall, by omega⟩

/-- C3: `CheckBroadcastedToP2PPeers` returns false when the sync-point
snapshot is empty or the local chain state is absent; otherwise it starts a
count at 1 (self), adds 1 for each node in the accepted-only node list
whose remote sync point exists and satisfies
`remote.Number + 1 ≥ final` (local final round number, `uint64` increment),
and returns whether the count reaches `ConsensusThreshold(now, false)`. -/
theorem checkBroadcastedToP2PPeers_spec (cfg : KernelConfig) (genesisNodesMap : Hash → Bool)
    (seqsAll seqsAcc : List NodeStateSequence) (spm : List (Hash × SyncPoint))
    (chainState : Option ChainState) (now : Nat) :
    (spm = [] ∨ chainState = none →
      checkBroadcastedToP2PPeers cfg genesisNodesMap seqsAll seqsAcc spm chainState now = false) ∧
    (∀ st, chainState = some st → spm ≠ [] →
      (checkBroadcastedToP2PPeers cfg genesisNodesMap seqsAll seqsAcc spm chainState now = true ↔
        1 + (nodesListWithoutState seqsAcc now).countP
            (broadcastCount spm st.finalRound.number) ≥
          consensusThreshold cfg genesisNodesMap seqsAll now false)) := by
  constructor
  · rintro (h | h)
    · subst h
      cases chainState with
      | none => rfl
      | some st => simp [checkBroadcastedToP2PPeers]
    · subst h
      rfl
  · intro st hst hne
    subst hst
    have hemp : spm.isEmpty = false := by
      cases spm with
      | nil => exact absurd rfl hne
      | cons a l => rfl
    simp only [checkBroadcastedToP2PPeers, hemp, Bool.false_eq_true, if_false,
      foldl_count_eq_countP]
    simp

/-- C2: `CheckCatchUpWithP2PPeers` returns false if the snapshot is empty
or the local chain state is absent; it returns false whenever some node's
remote sync point fails the walk conditions (more than one round ahead, or
exactly one ahead without a matching matured local cache projection); and
when every reported sync point passes the walk it returns whether
1 (self) plus the number of reporting nodes reaches
`ConsensusThreshold(now, false)`. -/
theorem checkCatchUpWithP2PPeers_spec (cfg : KernelConfig) (genesisNodesMap : Hash → Bool)
    (seqsAll seqsAcc : List NodeStateSequence) (spm : List (Hash × SyncPoint))
    (chainState : Option ChainState) (now : Nat) :
    (spm = [] ∨ chainState = none →
      checkCatchUpWithP2PPeers cfg genesisNodesMap seqsAll seqsAcc spm chainState now = false) ∧
    (∀ st, chainState = some st → spm ≠ [] →
      ((∃ cn ∈ nodesListWithoutState seqsAcc now, ∃ remote,
          spm.lookup cn.idForNetwork = some remote ∧
          ¬ remoteOk cfg st.finalRound.number now st.cacheRound remote) →
        checkCatchUpWithP2PPeers cfg genesisNodesMap seqsAll seqsAcc spm chainState now = false) ∧
      ((∀ cn ∈ nodesListWithoutState seqsAcc now, ∀ remote,
          spm.lookup cn.idForNetwork = some remote →
          remoteOk cfg st.finalRound.number now st.cacheRound remote) →
        (checkCatchUpWithP2PPeers cfg genesisNodesMap seqsAll seqsAcc spm chainState now = true ↔
          1 + (nodesListWithoutState seqsAcc now).countP (hasRemote spm) ≥
            consensusThreshold cfg genesisNodesMap seqsAll now false))) := by
  constructor
  · rintro (h | h)
    · subst h
      cases chainState with
      | none => rfl
      | some st => simp [checkCatchUpWithP2PPeers]
    · subst h
      rfl
  · intro st hst hne
    subst hst
    have hemp : spm.isEmpty = false := by
      cases spm with
      | nil => exact absurd rfl hne
      | cons a l => rfl
    constructor
    · rintro ⟨cn, hmem, remote, hlkbad, hnotok⟩
      have hwalk : catchUpWalk cfg spm st.finalRound.number now st.cacheRound
          (nodesListWithoutState seqsAcc now) 1 = none := by
        cases hw : catchUpWalk cfg spm st.finalRound.number now st.cacheRound
            (nodesListWithoutState seqsAcc now) 1 with
        | none => rfl
        | some v =>
            have := (catchUpWalk_some_iff cfg spm st.finalRound.number now st.cacheRound
              (nodesListWithoutState seqsAcc now) 1 v).mp hw
            exact absurd (this.1 cn hmem remote hlkbad) hnotok
      simp only [checkCatchUpWithP2PPeers, hemp, Bool.false_eq_true, if_false, hwalk]
    · intro hall
      have hwalk : catchUpWalk cfg spm st.finalRound.number now st.cacheRound
          (nodesListWithoutState seqsAcc now) 1 =
          some (1 + (nodesListWithoutState seqsAcc now).countP (hasRemote spm)) :=
        (catchUpWalk_some_iff cfg spm st.finalRound.number now st.cacheRound
          (nodesListWithoutState seqsAcc now) 1 _).mpr ⟨hall, rfl⟩
      simp only [checkCatchUpWithP2PPeers, hemp, Bool.false_eq_true, if_false, hwalk]
      simp

/-- A concrete chain state: final round number 5, hash 9, no cache round. -/
def st0 : ChainState := ⟨⟨9, 5, 0⟩, none⟩

/-- A sync-point snapshot where the node with id 5 reports round 5. -/
def spm0 : List (Hash × SyncPoint) := [(5, ⟨7, 9, 5⟩)]

/-- A sync-point snapshot where the node with id 5 reports round 7, two
rounds ahead of `st0`. -/
def spmBad : List (Hash × SyncPoint) := [(5, ⟨7, 9, 7⟩)]

theorem checkBroadcastedToP2PPeers_spec_witness :
    checkBroadcastedToP2PPeers cfg0 gmapFalse seqs0 seqs0 spm0 (some st0) 2000 = true ↔
      1 + (nodesListWithoutState seqs0 2000).countP
          (broadcastCount spm0 st0.finalRound.number) ≥
        consensusThreshold cfg0 gmapFalse seqs0 2000 false :=
  (checkBroadcastedToP2PPeers_spec cfg0 gmapFalse seqs0 seqs0 spm0 (some st0) 2000).2
    st0 rfl (by decide)

theorem checkCatchUpWithP2PPeers_spec_witness :
    checkCatchUpWithP2PPeers cfg0 gmapFalse seqs0 seqs0 spmBad (some st0) 2000 = false :=
  ((checkCatchUpWithP2PPeers_spec cfg0 gmapFalse seqs0 seqs0 spmBad (some st0) 2000).2
    st0 rfl (by decide)).1
    ⟨cnAcc, by decide, ⟨7, 9, 7⟩, by decide, by
      rintro (h | ⟨-, cr, hcr, -⟩)
      · revert h
        decide
      · exact Option.noConfusion hcr⟩

/-- A concrete pledging registry entry with the same timestamp as `cnAcc`
and a larger id. -/
def cnPledge : CNode :=
  { idForNetwork := 7, signer := ⟨5, 6⟩, payee := ⟨7, 8⟩, transaction := 11
    timestamp := 1000, state := NodeState.pledging, consensusIndex := 0 }

theorem nodeSequenceWithoutState_sorted_indexed_witness :
    (nodeSequenceWithoutState [cnAcc, cnPledge] 2000 false).Pairwise canonicalLe :=
  (nodeSequenceWithoutState_sorted_indexed [cnAcc, cnPledge] 2000 false _ rfl).1

theorem consensusReady_spec_witness :
    consensusReady cfg0 gmapFalse cnAcc
        (cnAcc.timestamp + cfg0.kernelNodeAcceptPeriodMinimum) = false ∧
    consensusReady cfg0 gmapFalse cnAcc
        (cnAcc.timestamp + cfg0.kernelNodeAcceptPeriodMinimum + 1) = true :=
  (consensusReady_spec cfg0 gmapFalse cnAcc 2000 (by decide)).2.2.2 rfl rfl

/-- Big-endian encoding of a value into a fixed number of bytes (Go
`binary.BigEndian.PutUint64` and the raw 32- and 64-byte array copies). -/
def natToBytesBE : Nat → Nat → List Nat
  | 0, _ => []
  | count + 1, v => natToBytesBE count (v / 256) ++ [v % 256]

/-- Big-endian decoding of a byte list (Go `binary.BigEndian.Uint64` and
the raw array copies). -/
def bytesToNatBE (l : List Nat) : Nat := l.foldl (fun acc b => acc * 256 + b) 0

theorem natToBytesBE_length (count v : Nat) : (natToBytesBE count v).length = count := by
  induction count generalizing v with
  | zero => rfl
  | succ n ih => simp [natToBytesBE, ih]

theorem bytesToNatBE_append_singleton (l : List Nat) (b : Nat) :
    bytesToNatBE (l ++ [b]) = bytesToNatBE l * 256 + b := by
  unfold bytesToNatBE
  rw [List.foldl_append]
  rfl

theorem bytesToNatBE_natToBytesBE (count v : Nat) (h : v < 256 ^ count) :
    bytesToNatBE (natToBytesBE count v) = v := by
  induction count generalizing v with
  | zero =>
      have : v = 0 := by
        have h1 : (256 : Nat) ^ 0 = 1 := pow_zero 256
        omega
      subst this
      rfl
  | succ n ih =>
      rw [natToBytesBE, bytesToNatBE_append_singleton, ih (v / 256) ?_]
      · rw [Nat.mul_comm]
        exact Nat.div_add_mod v 256
      · apply Nat.div_lt_of_lt_mul
        rw [← pow_succ']
        exact h

theorem take_append_exact {α : Type} (a r : List α) : (a ++ r).take a.length = a := by
  induction a with
  | nil => rfl
  | cons x xs ih => simp [ih]

theorem drop_append_exact {α : Type} (a r : List α) : (a ++ r).drop a.length = r := by
  induction a with
  | nil => rfl
  | cons x xs ih => simp [ih]

theorem getD_append_exact {α : Type} (x y : List α) (d : α) :
    (x ++ y).getD x.length d = y.getD 0 d := by
  induction x with
  | nil => rfl
  | cons a l ih => simpa using ih

/-- The error taxonomy of `AuthenticateAs`; the source returns formatted
errors, the constructors name its distinct return sites (lines 391-418). -/
inductive AuthError where
  | malformed
  | timeout
  | wrongRecipient
  | selfPeer
  | badSignature
deriving DecidableEq, Repr

/-- Structure `p2p.AuthToken` as built by the source (lines 419-424). -/
structure AuthToken where
  peerId : Hash
  timestamp : Nat
  isRelayer : Bool
  data : List Nat
deriving DecidableEq, Repr

/-- Modelled from the spec: the cryptographic primitives of the `crypto`
and `common` packages used by the handshakes, kept abstract.  `pubOf` is
`Key.Public()`, `dhd` is `Key.DeterministicHashDerive()`, `sign` and
`verify` the signature pair over 32-byte digests, `blake3` the message
digest, `addrHash` is `Address.Hash()` over the spend and view public
keys, and `forNetwork` is `Hash.ForNetwork(networkId)`. -/
structure CryptoPrim where
  pubOf : Nat → Nat
  dhd : Nat → Nat
  sign : Nat → Nat → Nat
  verify : Nat → Nat → Nat → Bool
  blake3 : List Nat → Nat
  addrHash : Nat → Nat → Nat
  forNetwork : Nat → Nat → Nat

/-- The timestamp field of a new-handshake message (`msg[:8]`). -/
def authMsgTs (msg : List Nat) : Nat := bytesToNatBE (msg.take 8)

/-- The recipient field of a new-handshake message (`msg[8:40]`). -/
def authMsgRecipient (msg : List Nat) : Hash := bytesToNatBE ((msg.drop 8).take 32)

/-- The signer public spend key field of a new-handshake message
(`msg[40:72]`). -/
def authMsgSigner (msg : List Nat) : Nat := bytesToNatBE ((msg.drop 40).take 32)

/-- The signature field of a new-handshake message (`msg[73:137]`). -/
def authMsgSig (msg : List Nat) : Nat := bytesToNatBE ((msg.drop 73).take 64)

/-- The peer id derived from the embedded signer key (lines 405-408): the
view key is re-derived from the spend key, the address is hashed and
mapped onto the network. -/
def authPeerId (c : CryptoPrim) (networkId : Hash) (msg : List Nat) : Hash :=
  c.forNetwork (c.addrHash (authMsgSigner msg) (c.pubOf (c.dhd (authMsgSigner msg)))) networkId

/-- The timeout condition of `AuthenticateAs` (lines 395-397).  The source
computes `|now − ts| > timeoutSec` through `float64`; the model uses exact
integer arithmetic, which agrees with the source whenever the compared
magnitudes stay below `2^53`, where `float64` arithmetic on integers is
exact. -/
def authTimeoutCond (now : Int) (ts : Nat) (timeoutSec : Int) : Prop :=
  0 < timeoutSec ∧ timeoutSec < ((now - (ts : Int)).natAbs : Int)

instance (now : Int) (ts : Nat) (timeoutSec : Int) :
    Decidable (authTimeoutCond now ts timeoutSec) := by
  unfold authTimeoutCond
  infer_instance

/-- Function `Node.AuthenticateAs` (lines 390-426). -/
def authenticateAs (c : CryptoPrim) (networkId recipientId : Hash)
    (msg : List Nat) (timeoutSec : Int) (now : Int) : Except AuthError AuthToken :=
  if msg.length ≠ 137 then Except.error AuthError.malformed
  else if authTimeoutCond now (authMsgTs msg) timeoutSec then Except.error AuthError.timeout
  else if authMsgRecipient msg ≠ recipientId then Except.error AuthError.wrongRecipient
  else if authPeerId c networkId msg = recipientId then Except.error AuthError.selfPeer
  else if c.verify (authMsgSigner msg) (c.blake3 (msg.take 73)) (authMsgSig msg) = false then
    Except.error AuthError.badSignature
  else Except.ok
    { peerId := authPeerId c networkId msg
      timestamp := authMsgTs msg
      isRelayer := msg.getD 72 0 == 1
      data := msg }

/-- Function `Node.BuildAuthenticationMessage` (lines 374-388): `buildTs` is the
build-time Unix-second clock reading as a `uint64`, `privSpend` the node's
private spend key, and the relayer flag byte is 1 or 0. -/
def buildAuthenticationMessage (c : CryptoPrim) (privSpend : Nat) (isRelayer : Bool)
    (relayerId : Hash) (buildTs : Nat) : List Nat :=
  let data := natToBytesBE 8 buildTs ++ natToBytesBE 32 relayerId ++
    natToBytesBE 32 (c.pubOf privSpend) ++ [if isRelayer then 1 else 0]
  data ++ natToBytesBE 64 (c.sign privSpend (c.blake3 data))

/-- C6: for a recipient distinct from the node's own network id, verifying
the node's own freshly built handshake with the timeout disabled or
satisfied succeeds and returns a token whose peer id is the node's own id,
whose relayer flag is the node's, and whose timestamp is the build-time
Unix seconds.  The cryptographic hypotheses say the spend key and recipient
fit in 32 bytes, the timestamp in 8, signatures in 64, and that
verification accepts the node's own signatures. -/
theorem authenticateAs_buildAuthenticationMessage (c : CryptoPrim) (privSpend : Nat)
    (isRelayer : Bool) (networkId relayerId : Hash) (buildTs : Nat) (timeoutSec now : Int)
    (hpub : c.pubOf privSpend < 2 ^ 256)
    (hrid : relayerId < 2 ^ 256)
    (hts : buildTs < 2 ^ 64)
    (hsig : ∀ h : Nat, c.sign privSpend h < 2 ^ 512)
    (hver : ∀ h : Nat, c.verify (c.pubOf privSpend) h (c.sign privSpend h) = true)
    (hne : c.forNetwork (c.addrHash (c.pubOf privSpend) (c.pubOf (c.dhd (c.pubOf privSpend))))
        networkId ≠ relayerId)
    (htime : ¬ authTimeoutCond now buildTs timeoutSec) :
    authenticateAs c networkId relayerId
        (buildAuthenticationMessage c privSpend isRelayer relayerId buildTs) timeoutSec now =
      Except.ok
        { peerId := c.forNetwork
            (c.addrHash (c.pubOf privSpend) (c.pubOf (c.dhd (c.pubOf privSpend)))) networkId
          timestamp := buildTs
          isRelayer := isRelayer
          data := buildAuthenticationMessage c privSpend isRelayer relayerId buildTs } := by
  have e64 : (256 : Nat) ^ 8 = 2 ^ 64 := by norm_num
  have e256 : (256 : Nat) ^ 32 = 2 ^ 256 := by norm_num
  have e512 : (256 : Nat) ^ 64 = 2 ^ 512 := by norm_num
  set a := natToBytesBE 8 buildTs with hA
  set b := natToBytesBE 32 relayerId with hB
  set cc := natToBytesBE 32 (c.pubOf privSpend) with hC
  set d : List Nat := [if isRelayer then 1 else 0] with hD
  set dataL := a ++ b ++ cc ++ d with hdata
  set e := natToBytesBE 64 (c.sign privSpend (c.blake3 dataL)) with hE
  have hlenA : a.length = 8 := by rw [hA]; exact natToBytesBE_length 8 buildTs
  have hlenB : b.length = 32 := by rw [hB]; exact natToBytesBE_length 32 relayerId
  have hlenC : cc.length = 32 := by rw [hC]; exact natToBytesBE_length 32 (c.pubOf privSpend)
  have hlenD : d.length = 1 := by simp [hD]
  have hlenE : e.length = 64 := by rw [hE]; exact natToBytesBE_length 64 _
  have hmsg : buildAuthenticationMessage c privSpend isRelayer relayerId buildTs =
      dataL ++ e := by
    rw [hE, hdata, hA, hB, hC, hD]
    rfl
  have hassoc : dataL ++ e = a ++ (b ++ (cc ++ (d ++ e))) := by
    rw [hdata]
    simp [List.append_assoc]
  have htake8 : (dataL ++ e).take 8 = a := by
    rw [hassoc, ← hlenA, take_append_exact]
  have hdrop8 : (dataL ++ e).drop 8 = b ++ (cc ++ (d ++ e)) := by
    rw [hassoc, ← hlenA, drop_append_exact]
  have hdrop40 : (dataL ++ e).drop 40 = cc ++ (d ++ e) := by
    have h1 : (40 : Nat) = 8 + 32 := rfl
    rw [h1, ← List.drop_drop, hdrop8, ← hlenB, drop_append_exact]
  have hdrop73 : (dataL ++ e).drop 73 = e := by
    have h1 : (73 : Nat) = 40 + 33 := rfl
    rw [h1, ← List.drop_drop, hdrop40]
    have h2 : (33 : Nat) = 32 + 1 := rfl
    rw [h2, ← List.drop_drop, ← hlenC, drop_append_exact, ← hlenD, drop_append_exact]
  have hts8 : authMsgTs (dataL ++ e) = buildTs := by
    unfold authMsgTs
    rw [htake8, hA]
    exact bytesToNatBE_natToBytesBE 8 buildTs (by rw [e64]; exact hts)
  have hrec : authMsgRecipient (dataL ++ e) = relayerId := by
    unfold authMsgRecipient
    rw [hdrop8, ← hlenB, take_append_exact, hB]
    exact bytesToNatBE_natToBytesBE 32 relayerId (by rw [e256]; exact hrid)
  have hsg : authMsgSigner (dataL ++ e) = c.pubOf privSpend := by
    unfold authMsgSigner
    rw [hdrop40, ← hlenC, take_append_exact, hC]
    exact bytesToNatBE_natToBytesBE 32 (c.pubOf privSpend) (by rw [e256]; exact hpub)
  have h73 : (dataL ++ e).take 73 = dataL := by
    have h1 : dataL.length = 73 := by
      rw [hdata]
      simp [hlenA, hlenB, hlenC, hlenD]
    rw [← h1, take_append_exact]
  have hsgn : authMsgSig (dataL ++ e) = c.sign privSpend (c.blake3 dataL) := by
    unfold authMsgSig
    rw [hdrop73, ← hlenE, List.take_length, hE]
    exact bytesToNatBE_natToBytesBE 64 _ (by rw [e512]; exact hsig _)
  have hpeer : authPeerId c networkId (dataL ++ e) =
      c.forNetwork (c.addrHash (c.pubOf privSpend) (c.pubOf (c.dhd (c.pubOf privSpend))))
        networkId := by
    unfold authPeerId
    rw [hsg]
  have hgd : (dataL ++ e).getD 72 0 = (if isRelayer then 1 else 0) := by
    have h2 : dataL ++ e = (a ++ b ++ cc) ++ (d ++ e) := by
      rw [hdata]
      simp [List.append_assoc]
    have h3 : (a ++ b ++ cc).length = 72 := by
      simp [hlenA, hlenB, hlenC]
    rw [h2, ← h3, getD_append_exact, hD]
    rfl
  rw [hmsg]
  simp only [authenticateAs]
  rw [if_neg (show ¬ (dataL ++ e).length ≠ 137 by
    simp [hlenA, hlenB, hlenC, hlenD, hlenE, hdata])]
  rw [if_neg (show ¬ authTimeoutCond now (authMsgTs (dataL ++ e)) timeoutSec by
    rw [hts8]; exact htime)]
  rw [if_neg (show ¬ authMsgRecipient (dataL ++ e) ≠ relayerId by
    rw [hrec]; simp)]
  rw [if_neg (show ¬ authPeerId c networkId (dataL ++ e) = relayerId by
    rw [hpeer]; exact hne)]
  rw [if_neg (show ¬ c.verify (authMsgSigner (dataL ++ e))
      (c.blake3 ((dataL ++ e).take 73)) (authMsgSig (dataL ++ e)) = false by
    rw [hsg, h73, hsgn, hver (c.blake3 dataL)]; simp)]
  rw [hpeer, hts8, hgd]
  cases isRelayer <;> rfl

/-- An explicit collection of primitives satisfying the cryptographic
hypotheses (used to instantiate the handshake theorems). -/
def c0 : CryptoPrim :=
  { pubOf := fun k => k
    dhd := fun k => k
    sign := fun k h => (k + h) % 2 ^ 512
    verify := fun p h s => s == (p + h) % 2 ^ 512
    blake3 := fun l => l.length
    addrHash := fun x y => x + y
    forNetwork := fun h n => h + n }

theorem authenticateAs_buildAuthenticationMessage_witness :
    authenticateAs c0 2 1 (buildAuthenticationMessage c0 3 true 1 100) 0 0 =
      Except.ok
        { peerId := c0.forNetwork (c0.addrHash (c0.pubOf 3) (c0.pubOf (c0.dhd (c0.pubOf 3)))) 2
          timestamp := 100
          isRelayer := true
          data := buildAuthenticationMessage c0 3 true 1 100 } :=
  authenticateAs_buildAuthenticationMessage c0 3 true 2 1 100 0 0
    (by decide) (by decide) (by decide)
    (fun h => by
      have hp : (0 : Nat) < 2 ^ 512 := Nat.two_pow_pos 512
      simpa [c0] using Nat.mod_lt (3 + h) hp)
    (fun h => by simp [c0])
    (by decide)
    (fun hcond => absurd hcond.1 (by decide))

/-- C7: `AuthenticateAs` fails with `malformed` exactly on lengths other
than 137; with `timeout` exactly when, the length being right,
`timeoutSec > 0` and `|now − ts| > timeoutSec`; with `wrongRecipient`
exactly when additionally the recipient field differs from the expected
recipient; with `selfPeer` exactly when additionally the derived peer id
equals the recipient; with `badSignature` exactly when additionally the
signature fails verification against the digest of the first 73 bytes; and
succeeds exactly when every check passes — the checks applying in this
order. -/
theorem authenticateAs_errors (c : CryptoPrim) (networkId recipientId : Hash)
    (msg : List Nat) (timeoutSec now : Int) :
    (authenticateAs c networkId recipientId msg timeoutSec now =
        Except.error AuthError.malformed ↔ msg.length ≠ 137) ∧
    (authenticateAs c networkId recipientId msg timeoutSec now =
        Except.error AuthError.timeout ↔
      msg.length = 137 ∧ authTimeoutCond now (authMsgTs msg) timeoutSec) ∧
    (authenticateAs c networkId recipientId msg timeoutSec now =
        Except.error AuthError.wrongRecipient ↔
      msg.length = 137 ∧ ¬ authTimeoutCond now (authMsgTs msg) timeoutSec ∧
        authMsgRecipient msg ≠ recipientId) ∧
    (authenticateAs c networkId recipientId msg timeoutSec now =
        Except.error AuthError.selfPeer ↔
      msg.length = 137 ∧ ¬ authTimeoutCond now (authMsgTs msg) timeoutSec ∧
        authMsgRecipient msg = recipientId ∧ authPeerId c networkId msg = recipientId) ∧
    (authenticateAs c networkId recipientId msg timeoutSec now =
        Except.error AuthError.badSignature ↔
      msg.length = 137 ∧ ¬ authTimeoutCond now (authMsgTs msg) timeoutSec ∧
        authMsgRecipient msg = recipientId ∧ authPeerId c networkId msg ≠ recipientId ∧
        c.verify (authMsgSigner msg) (c.blake3 (msg.take 73)) (authMsgSig msg) = false) ∧
    ((∃ token, authenticateAs c networkId recipientId msg timeoutSec now =
        Except.ok token) ↔
      msg.length = 137 ∧ ¬ authTimeoutCond now (authMsgTs msg) timeoutSec ∧
        authMsgRecipient msg = recipientId ∧ authPeerId c networkId msg ≠ recipientId ∧
        c.verify (authMsgSigner msg) (c.blake3 (msg.take 73)) (authMsgSig msg) = true) := by
  unfold authenticateAs
  split_ifs with h1 h2 h3 h4 h5
  · refine ⟨by simp [h1], ?_, ?_, ?_, ?_, ?_⟩ <;> simp_all
  · refine ⟨by simp_all, by simp_all, ?_, ?_, ?_, ?_⟩ <;> simp_all
  · refine ⟨by simp_all, by simp_all, by simp_all, ?_, ?_, ?_⟩ <;> simp_all
  · refine ⟨by simp_all, by simp_all, by simp_all, by simp_all, ?_, ?_⟩ <;> simp_all
  · refine ⟨by simp_all, by simp_all, by simp_all, by simp_all, by simp_all, ?_⟩
    simp_all
  · refine ⟨by simp_all, by simp_all, by simp_all, by simp_all, by simp_all, ?_⟩
    simp_all

theorem authenticateAs_errors_witness :
    authenticateAs c0 2 1 [] 0 0 = Except.error AuthError.malformed ↔
      ([] : List Nat).length ≠ 137 :=
  (authenticateAs_errors c0 2 1 [] 0 0).1

/-- The error taxonomy of the legacy `Authenticate` (lines 527-558);
`selfPeer` and `signerMismatch` share the source's message text but are
distinct return sites. -/
inductive LegacyAuthError where
  | malformed
  | timeout
  | selfPeer
  | signerMismatch
  | badSignature
deriving DecidableEq, Repr

/-- Function `Node.GetAcceptedOrPledgingNode` (lines 235-243): the first entry of
the current node list with the given id in state Accepted or Pledging. -/
def getAcceptedOrPledgingNode (sequences : List NodeStateSequence) (nowNs : Nat)
    (id : Hash) : Option CNode :=
  (nodesListWithoutState sequences nowNs).find? fun cn =>
    cn.idForNetwork == id &&
      (cn.state == NodeState.accepted || cn.state == NodeState.pledging)

/-- The timeout condition of the legacy `Authenticate` (lines 531-534):
`clock.Now().Unix() - int64(ts) > 3`, with the `uint64 → int64` conversion
of the message timestamp and the wrapping of the `int64` subtraction made
explicit. -/
def legacyTimeoutCond (now : Int) (ts : Nat) : Prop :=
  wrap64 (now - int64OfUInt64 ts) > 3

instance (now : Int) (ts : Nat) : Decidable (legacyTimeoutCond now ts) := by
  unfold legacyTimeoutCond
  infer_instance

/-- Function `Node.Authenticate` (lines 527-558), the legacy handshake verifier:
`selfId` is `node.IdForNetwork`; `nowSec` is the Unix-second clock reading
and `nowNs` the nanosecond reading used by the consensus-node lookup.  On
success it returns the peer id and the trailing listener bytes. -/
def legacyAuthenticate (c : CryptoPrim) (networkId selfId : Hash)
    (sequences : List NodeStateSequence) (nowNs : Nat) (msg : List Nat)
    (nowSec : Int) : Except LegacyAuthError (Hash × List Nat) :=
  if msg.length < 8 + 32 + 64 then Except.error LegacyAuthError.malformed
  else if legacyTimeoutCond nowSec (bytesToNatBE (msg.take 8)) then
    Except.error LegacyAuthError.timeout
  else
    let pubSpend := bytesToNatBE ((msg.drop 8).take 32)
    let pubView := c.pubOf (c.dhd pubSpend)
    let peerId := c.forNetwork (c.addrHash pubSpend pubView) networkId
    if peerId = selfId then Except.error LegacyAuthError.selfPeer
    else if (match getAcceptedOrPledgingNode sequences nowNs peerId with
        | none => false
        | some peer =>
            !(c.addrHash peer.signer.publicSpendKey peer.signer.publicViewKey ==
              c.addrHash pubSpend pubView)) then
      Except.error LegacyAuthError.signerMismatch
    else if c.verify pubSpend (c.blake3 (msg.take 40))
        (bytesToNatBE ((msg.drop 40).take 64)) = false then
      Except.error LegacyAuthError.badSignature
    else Except.ok (peerId, msg.drop (40 + 64))

theorem wrap64_in_range (x : Int) (h1 : -(2 ^ 63) ≤ x) (h2 : x < 2 ^ 63) :
    wrap64 x = x := by
  unfold wrap64
  have e63 : (2 : Int) ^ 63 = 9223372036854775808 := by norm_num
  have e64 : (2 : Int) ^ 64 = 18446744073709551616 := by norm_num
  rw [e63] at h1 h2 ⊢
  rw [e64]
  omega

/-- For timestamps below `2^63` and a clock in the same range the legacy
timeout condition is the exact comparison `now − ts > 3`. -/
theorem legacyTimeoutCond_exact (now : Int) (ts : Nat) (hts : ts < 2 ^ 63)
    (hn0 : 0 ≤ now) (hn63 : now < 2 ^ 63) :
    legacyTimeoutCond now ts ↔ now - (ts : Int) > 3 := by
  unfold legacyTimeoutCond int64OfUInt64
  rw [if_pos hts]
  rw [wrap64_in_range (now - (ts : Int)) (by omega) (by omega)]

/-- The legacy verifier returns `timeout` exactly when its timeout
condition fires, whenever the length check passes. -/
theorem legacyAuthenticate_timeout_chain (c : CryptoPrim) (networkId selfId : Hash)
    (sequences : List NodeStateSequence) (nowNs : Nat) (msg : List Nat) (nowSec : Int)
    (hlen : 8 + 32 + 64 ≤ msg.length) :
    (legacyAuthenticate c networkId selfId sequences nowNs msg nowSec =
        Except.error LegacyAuthError.timeout ↔
      legacyTimeoutCond nowSec (bytesToNatBE (msg.take 8))) := by
  unfold legacyAuthenticate
  rw [if_neg (by omega)]
  by_cases hc : legacyTimeoutCond nowSec (bytesToNatBE (msg.take 8))
  · rw [if_pos hc]
    simp [hc]
  · rw [if_neg hc]
    simp only [hc, iff_false]
    intro h
    split at h
    · simp at h
    · split at h
      · simp at h
      · split at h
        · simp at h
        · simp at h

/-- A well-formed legacy message whose 8-byte timestamp field is
`2^64 − 100`, far in the future as an unsigned value. -/
def legacyMsgFarFuture : List Nat :=
  natToBytesBE 8 (2 ^ 64 - 100) ++ List.replicate 96 0

/-- C8 counterexample: on a well-formed legacy message with timestamp
`2^64 − 100` and clock 1700000000 the verifier returns `timeout` although
`now − ts > 3` is false — the `uint64 → int64` conversion of the timestamp
wraps to −100, so the claimed exact characterisation fails. -/
theorem legacyAuthenticate_timeout_counterexample :
    legacyAuthenticate c0 0 1 [] 0 legacyMsgFarFuture 1700000000 =
      Except.error LegacyAuthError.timeout ∧
    ¬ ((1700000000 : Int) - ((2 ^ 64 - 100 : Nat) : Int) > 3) := by
  constructor
  · rfl
  · decide

/-- C8 (amended): for a well-formed legacy message whose timestamp is
below `2^63` and a clock in `[0, 2^63)`, the verifier returns `timeout`
exactly when `now − ts > 3` strictly; at or beyond `2^63` the
`uint64 → int64` conversion wraps and the comparison is
`wrap64(now − int64(ts)) > 3` instead. -/
theorem legacyAuthenticate_timeout_iff (c : CryptoPrim) (networkId selfId : Hash)
    (sequences : List NodeStateSequence) (nowNs : Nat) (msg : List Nat) (nowSec : Int)
    (hlen : 8 + 32 + 64 ≤ msg.length)
    (hts63 : bytesToNatBE (msg.take 8) < 2 ^ 63)
    (hn0 : 0 ≤ nowSec) (hn63 : nowSec < 2 ^ 63) :
    (legacyAuthenticate c networkId selfId sequences nowNs msg nowSec =
        Except.error LegacyAuthError.timeout ↔
      nowSec - (bytesToNatBE (msg.take 8) : Int) > 3) := by
  rw [legacyAuthenticate_timeout_chain c networkId selfId sequences nowNs msg nowSec hlen]
  exact legacyTimeoutCond_exact nowSec _ hts63 hn0 hn63

/-- A well-formed legacy message whose timestamp is 4 seconds before
1700000000. -/
def legacyMsg4s : List Nat := natToBytesBE 8 1699999996 ++ List.replicate 96 0

/-- A well-formed legacy message whose timestamp is 3 seconds before
1700000000. -/
def legacyMsg3s : List Nat := natToBytesBE 8 1699999997 ++ List.replicate 96 0

theorem legacyAuthenticate_timeout_iff_witness :
    legacyAuthenticate c0 0 1 [] 0 legacyMsg4s 1700000000 =
      Except.error LegacyAuthError.timeout ∧
    legacyAuthenticate c0 0 1 [] 0 legacyMsg3s 1700000000 ≠
      Except.error LegacyAuthError.timeout :=
  ⟨(legacyAuthenticate_timeout_iff c0 0 1 [] 0 legacyMsg4s 1700000000
      (by decide) (by decide) (by decide) (by decide)).mpr (by decide),
    fun h => absurd ((legacyAuthenticate_timeout_iff c0 0 1 [] 0 legacyMsg3s 1700000000
      (by decide) (by decide) (by decide) (by decide)).mp h) (by decide)⟩

/-- A well-formed legacy message whose 8-byte timestamp field is
`2^64 − 50`. -/
def legacyMsgFarFuture2 : List Nat :=
  natToBytesBE 8 (2 ^ 64 - 50) ++ List.replicate 96 0

/-- C10 counterexample: a well-formed legacy message with timestamp
`2^64 − 50` satisfies `ts ≥ now − 3` (it is far in the future as an
unsigned value) yet the verifier rejects it with `timeout`: future-dated
timestamps are not accepted without bound. -/
theorem legacyAuthenticate_future_counterexample :
    ((2 ^ 64 - 50 : Nat) : Int) ≥ 1700000000 - 3 ∧
    legacyAuthenticate c0 0 1 [] 0 legacyMsgFarFuture2 1700000000 =
      Except.error LegacyAuthError.timeout := by
  constructor
  · decide
  · rfl

/-- C10 (amended): the legacy verifier accepts future-dated timestamps up
to `2^63`: for every well-formed legacy message whose timestamp satisfies
`now − 3 ≤ ts < 2^63` (the clock in `[0, 2^63)`), the timeout check
passes; at or beyond `2^63` the `uint64 → int64` conversion wraps and
far-future timestamps can be rejected. -/
theorem legacyAuthenticate_future_accepted (c : CryptoPrim) (networkId selfId : Hash)
    (sequences : List NodeStateSequence) (nowNs : Nat) (msg : List Nat) (nowSec : Int)
    (hlen : 8 + 32 + 64 ≤ msg.length)
    (hts63 : bytesToNatBE (msg.take 8) < 2 ^ 63)
    (hn0 : 0 ≤ nowSec) (hn63 : nowSec < 2 ^ 63)
    (hfut : nowSec - 3 ≤ (bytesToNatBE (msg.take 8) : Int)) :
    legacyAuthenticate c networkId selfId sequences nowNs msg nowSec ≠
      Except.error LegacyAuthError.timeout := by
  intro h
  have hc := (legacyAuthenticate_timeout_chain c networkId selfId sequences nowNs
    msg nowSec hlen).mp h
  rw [legacyTimeoutCond_exact nowSec _ hts63 hn0 hn63] at hc
  omega

/-- A well-formed legacy message dated 1800000000, about three years ahead
of the clock 1700000000. -/
def legacyMsgFuture : List Nat := natToBytesBE 8 1800000000 ++ List.replicate 96 0

theorem legacyAuthenticate_future_accepted_witness :
    legacyAuthenticate c0 0 1 [] 0 legacyMsgFuture 1700000000 ≠
      Except.error LegacyAuthError.timeout :=
  legacyAuthenticate_future_accepted c0 0 1 [] 0 legacyMsgFuture 1700000000
    (by decide) (by decide) (by decide) (by decide) (by decide)

/-- One iteration body of `sendGraphToConcensusNodes` (lines 593-598):
read the accepted node list at the current clock and send a graph message
to each listed id. -/
def sendGraphIteration (seqsAcc : List NodeStateSequence) (nowNs : Nat) : List Hash :=
  (nodesListWithoutState seqsAcc nowNs).map fun cn => cn.idForNetwork

/-- The send log of the graph-pusher loop after `k` ticks: entry `(t, i)`
records a send to id `i` during iteration `t` (at clock `nows t`).  The
loop of `sendGraphToConcensusNodes` (lines 589-600) waits only on its
ticker; it contains no select on the node-wide `done` channel, so the
iteration makes no use of the `done` input, which is threaded through only
so that claims about it can be stated. -/
def pusherRun (seqsAcc : List NodeStateSequence) (nows : Nat → Nat)
    (done : Nat → Bool) : Nat → List (Nat × Hash)
  | 0 => []
  | k + 1 => pusherRun seqsAcc nows done k ++
      (sendGraphIteration seqsAcc (nows k)).map fun i => (k, i)

/-- C9 counterexample: with one accepted node and the done signal fired
from tick 0 on, the pusher still performs a send during tick 1 — the claim
that no sends follow the done signal fails on the loop, which never
selects on done. -/
theorem pusherRun_counterexample :
    (fun _ : Nat => true) 0 = true ∧
    (1, 5) ∈ pusherRun seqs0 (fun _ => 2000) (fun _ => true) 2 := by
  constructor
  · rfl
  · decide

/-- C9 (amended): the graph pusher never observes the done signal: its
send log is independent of the signal, and every tick appends exactly the
accepted-list fan-out of that tick. -/
theorem pusherRun_ignores_done (seqsAcc : List NodeStateSequence) (nows : Nat → Nat)
    (done done2 : Nat → Bool) (k : Nat) :
    pusherRun seqsAcc nows done k = pusherRun seqsAcc nows done2 k ∧
    pusherRun seqsAcc nows done (k + 1) =
      pusherRun seqsAcc nows done k ++
        (sendGraphIteration seqsAcc (nows k)).map (fun i => (k, i)) := by
  constructor
  · induction k with
    | zero => rfl
    | succ n ih => simp [pusherRun, ih]
  · rfl

end MixinKernel
